import Mathlib

/-!
Verification of the archive sync engine in `src/sync_app.py` (class `SyncLogic`
and the scheduler loop of `SyncApp`).  The Python code is shallowly embedded:

* Python strings are Lean `String`s; Python's string comparison (`<` on code
  points, used by `list.sort`) is embedded as `lexLt` on the underlying
  character lists.
* `fnmatch.fnmatch` is embedded as `fnmatch` (pattern tokenizer `parseGlob`
  plus matcher `globMatch`), mirroring CPython's `fnmatch.translate`
  semantics: `*` matches any run of characters, `?` one character,
  `[...]`/`[!...]` character classes with ranges, an unterminated `[` is a
  literal.  `os.path.normcase` is the identity here (POSIX behaviour; on
  Windows both arguments are lower-cased first, which is orthogonal to the
  properties proved below).
* Filesystem and clock effects are supplied through explicit environment
  records (`BackupEnv`, `RestoreEnv`); emitted log/progress/finish messages
  become an explicit `Event` list (the wall-clock elapsed/ETA strings of
  `progress` events are abstracted away, only the fractional value is kept,
  as a `Rat`).  OS-level deletions (`os.remove`) are modelled as effective.
-/

/-- Python string `<` (code-point lexicographic order) on character lists,
as used by `list.sort(reverse=True)` in `cleanup_old_backups`,
`scan_for_backups` and `run_restore`. -/
def lexLt : List Char → List Char → Bool
  | [], [] => false
  | [], _ :: _ => true
  | _ :: _, [] => false
  | a :: as, b :: bs =>
    if a.toNat < b.toNat then true
    else if b.toNat < a.toNat then false
    else lexLt as bs

/-- Python `<` on strings. -/
def strLt (a b : String) : Bool := lexLt a.data b.data

/-- Python `>=` on strings (the comparator of a descending sort). -/
def strGe (a b : String) : Bool := !strLt a b

theorem lexLt_irrefl : ∀ l : List Char, lexLt l l = false := by
  intro l
  induction l with
  | nil => rfl
  | cons a as ih => simp [lexLt, ih]

theorem lexLt_trans : ∀ a b c : List Char,
    lexLt a b = true → lexLt b c = true → lexLt a c = true := by
  intro a
  induction a with
  | nil =>
    intro b c hab hbc
    cases b with
    | nil => simp [lexLt] at hab
    | cons x xs =>
      cases c with
      | nil => simp [lexLt] at hbc
      | cons y ys => simp [lexLt]
  | cons a as ih =>
    intro b c hab hbc
    cases b with
    | nil => simp [lexLt] at hab
    | cons x xs =>
      cases c with
      | nil => simp [lexLt] at hbc
      | cons y ys =>
        simp only [lexLt] at hab hbc ⊢
        split at hab
        · split
          · rfl
          · split
            · next h1 _ h2 =>
              exfalso
              split at hbc
              · omega
              · split at hbc
                · exact absurd hbc (by simp)
                · omega
            · next h1 h2 h3 =>
              split at hbc
              · omega
              · split at hbc
                · exact absurd hbc (by simp)
                · omega
        · split at hab
          · exact absurd hab (by simp)
          · next h1 h2 =>
            have hax : a.toNat = x.toNat := by omega
            split at hbc
            · split
              · rfl
              · next h3 h4 => omega
            · split at hbc
              · exact absurd hbc (by simp)
              · next h5 h6 =>
                split
                · omega
                · split
                  · omega
                  · exact ih xs ys hab hbc

theorem char_eq_of_toNat_eq {a x : Char} (h : a.toNat = x.toNat) : a = x :=
  Char.eq_of_val_eq (UInt32.toNat.inj h)

theorem lexLt_eq_of_not : ∀ a b : List Char,
    lexLt a b = false → lexLt b a = false → a = b := by
  intro a
  induction a with
  | nil =>
    intro b hab _
    cases b with
    | nil => rfl
    | cons x xs => simp [lexLt] at hab
  | cons a as ih =>
    intro b hab hba
    cases b with
    | nil => simp [lexLt] at hba
    | cons x xs =>
      rcases Nat.lt_trichotomy a.toNat x.toNat with h | h | h
      · simp [lexLt, h] at hab
      · have hax : a = x := char_eq_of_toNat_eq h
        subst hax
        simp only [lexLt, Nat.lt_irrefl, if_false] at hab hba
        exact congrArg (a :: ·) (ih xs hab hba)
      · simp [lexLt, h, Nat.lt_asymm h] at hba

theorem lexLt_asymm (a b : List Char) (h : lexLt a b = true) : lexLt b a = false := by
  cases hba : lexLt b a with
  | false => rfl
  | true =>
    have := lexLt_trans a b a h hba
    rw [lexLt_irrefl] at this
    exact absurd this (by simp)

theorem strGe_trans (a b c : String) (h1 : strGe a b = true) (h2 : strGe b c = true) :
    strGe a c = true := by
  simp only [strGe, strLt, Bool.not_eq_true'] at h1 h2 ⊢
  cases hac : lexLt a.data c.data with
  | false => rfl
  | true =>
    exfalso
    cases hcb : lexLt c.data b.data with
    | true =>
      have := lexLt_trans _ _ _ hac hcb
      rw [h1] at this
      exact Bool.false_ne_true this
    | false =>
      have hbc : b.data = c.data := lexLt_eq_of_not _ _ h2 hcb
      rw [← hbc] at hac
      rw [h1] at hac
      exact Bool.false_ne_true hac

theorem strGe_total (a b : String) : (strGe a b || strGe b a) = true := by
  simp only [strGe, strLt]
  cases hab : lexLt a.data b.data with
  | false => simp
  | true => simp [lexLt_asymm _ _ hab]

/-- Scan a bracket-expression body up to the closing `]`; returns the
content before it and the remainder of the pattern after it (CPython
`fnmatch.translate` scans `while j < n and pat[j] != ']': j += 1`). -/
def scanToClose : List Char → Option (List Char × List Char)
  | [] => none
  | c :: rest =>
    if c = ']' then some ([], rest)
    else
      match scanToClose rest with
      | none => none
      | some (content, rest') => some (c :: content, rest')

/-- Bracket body after the optional `!`: an optional literal first `]`,
then content up to the closing `]` (`fnmatch.translate`:
`if pat[j] == ']': j += 1` before the scan loop). -/
def splitBracketBody : List Char → Option (List Char × List Char)
  | [] => none
  | c :: rest =>
    if c = ']' then
      match scanToClose rest with
      | none => none
      | some (content, rest') => some (']' :: content, rest')
    else
      match scanToClose (c :: rest) with
      | none => none
      | some (content, rest') => some (content, rest')

/-- Parse the part of a glob pattern following `[`: an optional leading `!`
(negation) and the class body.  `none` when there is no closing `]`;
then the `[` is treated as a literal character, as in `fnmatch.translate`. -/
def splitBracket : List Char → Option (Bool × List Char × List Char)
  | [] => none
  | c :: rest =>
    if c = '!' then (splitBracketBody rest).map (fun p => (true, p.1, p.2))
    else (splitBracketBody (c :: rest)).map (fun p => (false, p.1, p.2))

theorem scanToClose_length : ∀ l content rest, scanToClose l = some (content, rest) →
    rest.length < l.length := by
  intro l
  induction l with
  | nil => intro content rest h; simp [scanToClose] at h
  | cons c cs ih =>
    intro content rest h
    simp only [scanToClose] at h
    split at h
    · cases h; simp
    · cases hcall : scanToClose cs with
      | none => rw [hcall] at h; cases h
      | some pr =>
        rw [hcall] at h
        obtain ⟨content', rest'⟩ := pr
        cases h
        have := ih _ _ hcall
        simp only [List.length_cons]
        omega

theorem splitBracketBody_length : ∀ l content rest,
    splitBracketBody l = some (content, rest) → rest.length < l.length := by
  intro l content rest h
  cases l with
  | nil => simp [splitBracketBody] at h
  | cons c cs =>
    simp only [splitBracketBody] at h
    split at h
    · cases hcall : scanToClose cs with
      | none => rw [hcall] at h; cases h
      | some pr =>
        rw [hcall] at h
        obtain ⟨content', rest'⟩ := pr
        cases h
        have := scanToClose_length _ _ _ hcall
        simp only [List.length_cons]
        omega
    · cases hcall : scanToClose (c :: cs) with
      | none => rw [hcall] at h; cases h
      | some pr =>
        rw [hcall] at h
        obtain ⟨content', rest'⟩ := pr
        cases h
        exact scanToClose_length _ _ _ hcall

theorem splitBracket_length : ∀ l neg content rest,
    splitBracket l = some (neg, content, rest) → rest.length < l.length := by
  intro l neg content rest h
  cases l with
  | nil => simp [splitBracket] at h
  | cons c cs =>
    simp only [splitBracket] at h
    split at h
    · cases hcall : splitBracketBody cs with
      | none => rw [hcall] at h; cases h
      | some pr =>
        rw [hcall] at h
        obtain ⟨content', rest'⟩ := pr
        simp only [Option.map] at h
        cases h
        have := splitBracketBody_length _ _ _ hcall
        simp only [List.length_cons]
        omega
    · cases hcall : splitBracketBody (c :: cs) with
      | none => rw [hcall] at h; cases h
      | some pr =>
        rw [hcall] at h
        obtain ⟨content', rest'⟩ := pr
        simp only [Option.map] at h
        cases h
        exact splitBracketBody_length _ _ _ hcall

/-- One token of a compiled glob pattern, mirroring what
`fnmatch.translate` compiles each pattern position into: a literal
character, `*`, `?`, or a (possibly negated) character class. -/
inductive GlobTok where
  | lit (c : Char)
  | star
  | anyChar
  | set (neg : Bool) (content : List Char)
deriving Repr, DecidableEq

/-- Tokenize a glob pattern as `fnmatch.translate` does:  `*` and `?` are
wildcards, `[` opens a character class when a closing `]` exists and is a
literal otherwise, everything else is literal. -/
def parseGlob : List Char → List GlobTok
  | [] => []
  | c :: ps =>
    if c = '*' then .star :: parseGlob ps
    else if c = '?' then .anyChar :: parseGlob ps
    else if c = '[' then
      match h : splitBracket ps with
      | none => .lit '[' :: parseGlob ps
      | some (neg, content, rest) => .set neg content :: parseGlob rest
    else .lit c :: parseGlob ps
termination_by l => l.length
decreasing_by
  all_goals simp only [List.length_cons]
  all_goals try omega
  have := splitBracket_length _ _ _ _ h
  omega

/-- Membership of a character in a bracket-class body: `a-b` denotes a
code-point range (an empty range such as `z-a` matches nothing), anything
else is a literal member; a leading or trailing `-` is a literal. -/
def charInSet (c : Char) : List Char → Bool
  | a :: '-' :: b :: rest => (a.toNat ≤ c.toNat && c.toNat ≤ b.toNat) || charInSet c rest
  | a :: rest => c = a || charInSet c rest
  | [] => false

/-- Matcher for a tokenized glob pattern against a whole string
(`re.fullmatch` semantics of the regex produced by `fnmatch.translate`). -/
def globMatch : List Char → List GlobTok → Bool
  | [], [] => true
  | _ :: _, [] => false
  | s, .star :: ts =>
    globMatch s ts ||
      (match s with
       | [] => false
       | _ :: s' => globMatch s' (.star :: ts))
  | [], .lit _ :: _ => false
  | c :: s, .lit p :: ts => c = p && globMatch s ts
  | [], .anyChar :: _ => false
  | _ :: s, .anyChar :: ts => globMatch s ts
  | [], .set _ _ :: _ => false
  | c :: s, .set neg content :: ts => (charInSet c content != neg) && globMatch s ts
termination_by s ts => (ts.length, s.length)

/-- `fnmatch.fnmatch(name, pat)` (with `os.path.normcase` the identity,
i.e. POSIX case sensitivity; on Windows both sides are lower-cased first,
which does not affect the properties below). -/
def fnmatch (name pat : String) : Bool :=
  globMatch name.data (parseGlob pat.data)

/-- `path.replace('\\', '/')` — Python `str.replace` on 1-character
strings is a character-wise map. -/
def normalizeSeps (path : String) : String :=
  ⟨path.data.map (fun c => if c = '\\' then '/' else c)⟩

/-- Python `str.split('/')` on the character list: `"a//b"` gives
`["a", "", "b"]` and `""` gives `[""]`. -/
def splitOnSlash : List Char → List (List Char)
  | [] => [[]]
  | c :: rest =>
    let r := splitOnSlash rest
    if c = '/' then [] :: r
    else
      match r with
      | [] => [[c]]
      | x :: xs => (c :: x) :: xs

/-- `path.replace('\\', '/').split('/')` from `SyncLogic.should_ignore`:
the segments of the separator-normalized path. -/
def pathParts (path : String) : List String :=
  (splitOnSlash (normalizeSeps path).data).map (fun l => ⟨l⟩)

/-- `SyncLogic.should_ignore`: every segment of the normalized path is
tested against every configured pattern; the path is ignored when any
segment matches any pattern.  Pure function of its arguments. -/
def should_ignore (patterns : List String) (path : String) : Bool :=
  (pathParts path).any (fun part => patterns.any (fun p => fnmatch part p))

unseal parseGlob globMatch

/-- Stable descending insertion: `x` is placed before the first element
that is not strictly greater than it. -/
def insertDesc (x : String) : List String → List String
  | [] => [x]
  | y :: ys => if strLt x y then y :: insertDesc x ys else x :: y :: ys

/-- Python `list.sort(reverse=True)` on strings: stable sort by
descending code-point order (`cleanup_old_backups`, `scan_for_backups`,
`run_restore`).  Realized as a stable insertion sort, which computes
the same list as any stable descending sort. -/
def sortDesc (l : List String) : List String := l.foldr insertDesc []

/-- `SyncLogic.cleanup_old_backups`, lines 137-153: sort the globbed
archive paths descending and delete everything past the first
`retention_count`.  Returns the list of paths handed to `os.remove`
(deletion modelled as effective; a failed deletion is logged and the
loop continues). -/
def cleanup_old_backups (files : List String) (count : Nat) : List String :=
  let sorted := sortDesc files
  if count < sorted.length then sorted.drop count else []

/-- `os.path.basename` (ntpath): the part after the last `/` or `\`. -/
def basename (path : String) : String :=
  ((splitOnSlash (normalizeSeps path).data).map (fun l => (⟨l⟩ : String))).getLastD ""

/-- `os.path.join` with a single separator (the engine's archive-relative
paths use the forward slash form ultimately stored in the zip). -/
def joinPath (a b : String) : String := a ++ "/" ++ b

/-- A wall-clock timestamp at second resolution, the input of
`datetime.now().strftime("%Y%m%d_%H%M%S")` in `run_backup`. -/
structure DateTime where
  year : Nat
  month : Nat
  day : Nat
  hour : Nat
  minute : Nat
  second : Nat
deriving Repr, DecidableEq

/-- In-range calendar fields, with a four-digit year (the fixed-width
regime in which `strftime` output is fixed-width). -/
def ValidDT (t : DateTime) : Prop :=
  1000 ≤ t.year ∧ t.year ≤ 9999 ∧ 1 ≤ t.month ∧ t.month ≤ 12 ∧
    1 ≤ t.day ∧ t.day ≤ 31 ∧ t.hour ≤ 23 ∧ t.minute ≤ 59 ∧ t.second ≤ 59

instance (t : DateTime) : Decidable (ValidDT t) := by
  unfold ValidDT; infer_instance

/-- `k`-digit zero-padded decimal rendering (most significant digit
first); models the fixed-width `%Y`/`%m`/`%d`/`%H`/`%M`/`%S` fields. -/
def padNum : Nat → Nat → List Char
  | 0, _ => []
  | k + 1, n => Nat.digitChar (n / 10 ^ k) :: padNum k (n % 10 ^ k)

/-- `datetime.now().strftime("%Y%m%d_%H%M%S")` from `run_backup`
line 179. -/
def strftimeTS (t : DateTime) : String :=
  ⟨padNum 4 t.year ++ padNum 2 t.month ++ padNum 2 t.day ++
    '_' :: (padNum 2 t.hour ++ padNum 2 t.minute ++ padNum 2 t.second)⟩

/-- `f"{self.cfg.file_prefix}_{self.cfg.hostname}_{timestamp}.zip"`
(`run_backup` line 180); the prefix constant is `"Antigravity_Backup"`
(`SyncConfig.__init__`). -/
def mkArchiveName (hostname : String) (t : DateTime) : String :=
  "Antigravity_Backup" ++ "_" ++ hostname ++ "_" ++ strftimeTS t ++ ".zip"

/-- Chronological strict order on timestamps: lexicographic on
(year, month, day, hour, minute, second). -/
def chronLt (t u : DateTime) : Bool :=
  if t.year ≠ u.year then decide (t.year < u.year)
  else if t.month ≠ u.month then decide (t.month < u.month)
  else if t.day ≠ u.day then decide (t.day < u.day)
  else if t.hour ≠ u.hour then decide (t.hour < u.hour)
  else if t.minute ≠ u.minute then decide (t.minute < u.minute)
  else decide (t.second < u.second)

/-- One message handed to the reporting channel: `SyncLogic.log`,
`SyncLogic.progress` (only the fractional value is kept; the label and
the wall-clock elapsed/ETA strings are abstracted away) and
`SyncLogic.finish`. -/
inductive Event where
  | log (msg : String)
  | progress (val : Rat)
  | finish (success : Bool) (msg : String)
deriving Repr, DecidableEq

/-- A `(full_file_path, arcname)` pair collected by the scan loop of
`run_backup` (the spec's FileEntry). -/
structure FileEntry where
  src : String
  arc : String
deriving Repr, DecidableEq

/-- A directory as seen by `os.walk`: regular file names and named
subdirectories, in listing order. -/
inductive DirTree where
  | node (files : List String) (subdirs : List (String × DirTree))
deriving Repr

/-- The storage-root state consulted by `SyncLogic.ensure_drive`. -/
structure DriveEnv where
  drivePath : String
  driveExists : Bool
  makedirsOk : Bool
  mkdirErrMsg : String

/-- `SyncLogic.ensure_drive`, lines 113-125: an unset path or a failed
`os.makedirs` aborts with `False`; returns the success flag and the log
lines it emits. -/
def ensure_drive (d : DriveEnv) : Bool × List Event :=
  if d.drivePath = "" then
    (false, [Event.log "ERROR: Drive path is not configured."])
  else if d.driveExists then (true, [])
  else if d.makedirsOk then (true, [])
  else (false, [Event.log ("Could not create directory: " ++ d.mkdirErrMsg)])

/-- The characters Python `str.strip()` removes (ASCII whitespace; the
folder names at issue are ASCII). -/
def isPySpace (c : Char) : Bool :=
  c = ' ' || c = '\t' || c = '\n' || c = '\r' || c = '\x0b' || c = '\x0c'

/-- Python `str.strip()` with no argument: remove leading and trailing
whitespace (`folder = folder.strip()`, line 186). -/
def pyStrip (s : String) : String :=
  ⟨((s.data.dropWhile isPySpace).reverse.dropWhile isPySpace).reverse⟩

/-- Environment of one `run_backup` call: configuration reads, the local
filesystem under the user root, the archive-open outcome, and the values
the concurrently-writable `stop_requested` flag and per-file
`zip_file.write` outcome take at each loop index. -/
structure BackupEnv where
  drive : DriveEnv
  hostname : String
  baseUserPath : String
  timestamp : DateTime
  targetFolders : List String
  ignorePatterns : List String
  retentionCount : Nat
  /-- Contents of `os.path.join(base_user_path, folder)` per trimmed
  folder name; `none` models `os.path.exists` returning `False`. -/
  fs : String → Option DirTree
  /-- Archives already at the storage root (inputs of
  `cleanup_old_backups`' glob). -/
  existingArchives : List String
  /-- Whether `zipfile.ZipFile(full_output_path, 'w', ...)` succeeds;
  a failure is the unexpected-exception path of lines 250-254. -/
  zipOpenOk : Bool
  zipOpenErrMsg : String
  /-- Value `self.stop_requested` reads at the check preceding entry
  `idx` (line 221). -/
  stop : Nat → Bool
  /-- Whether `zip_file.write` raises at entry `idx` (lines 229-232). -/
  writeErr : Nat → Bool

/-- The walk of one existing source folder (lines 191-201): the files of
the current directory are collected first (names matching an ignore
pattern are skipped), then the non-ignored subdirectories are descended
into -- `dirs[:] = [d for d in dirs if not self.should_ignore(d)]`
prunes the traversal itself. -/
def walkCollect (patterns : List String) (srcPath arcBase : String) : DirTree → List FileEntry
  | .node files subdirs =>
    (files.filter (fun f => !should_ignore patterns f)).map
      (fun f => { src := joinPath srcPath f, arc := joinPath arcBase f })
    ++ (subdirs.attach.filter (fun d => !should_ignore patterns d.1.1)).flatMap
      (fun d => walkCollect patterns (joinPath srcPath d.1.1) (joinPath arcBase d.1.1) d.1.2)
termination_by t => sizeOf t
decreasing_by
  obtain ⟨⟨name, tree⟩, hmem⟩ := d
  have hm := List.sizeOf_lt_of_mem hmem
  simp only [DirTree.node.sizeOf_spec]
  simp at hm ⊢
  omega

/-- The scan phase of `run_backup` (lines 184-203): iterate the
configured folders, trim names, skip blanks, warn about missing folders,
and collect the `(full_file_path, arcname)` pairs of existing ones.
Returns the collected entries and the emitted log lines. -/
def collectFiles (env : BackupEnv) (silent : Bool) : List FileEntry × List Event :=
  env.targetFolders.foldl
    (fun acc folder =>
      let folder := pyStrip folder
      if folder = "" then acc
      else
        match env.fs folder with
        | some t =>
          (acc.1 ++ walkCollect env.ignorePatterns (joinPath env.baseUserPath folder) folder t,
           acc.2 ++ (if !silent then [Event.log ("Scanning: " ++ joinPath env.baseUserPath folder)] else []))
        | none =>
          (acc.1,
           acc.2 ++ (if !silent then [Event.log ("Warning: Folder " ++ folder ++ " not found.")] else [])))
    ([], [])

unseal walkCollect

/-- Outcome of the archive-writing loop of `run_backup`
(lines 220-243): either the cancellation checkpoint fired, or every
entry was processed.  Carries the emitted events and the entries
actually handed to `zip_file.write` without raising. -/
inductive BkLoop where
  | cancelled (events : List Event) (written : List FileEntry)
  | completed (events : List Event) (written : List FileEntry)
deriving Repr, DecidableEq

/-- The `for idx, (src_file, zip_path) in enumerate(files_to_zip)` loop of
`run_backup`: check `stop_requested`, write (a per-file exception is
logged and skipped), then emit a progress snapshot
`(idx + 1) / total_files`. -/
def backupGo (env : BackupEnv) (silent : Bool) (total : Nat) : Nat → List FileEntry → BkLoop
  | _, [] => .completed [] []
  | idx, entry :: rest =>
    if env.stop idx then
      .cancelled
        ((if !silent then [Event.log "Backup Cancelled."] else []) ++
         (if !silent then [Event.finish false "Cancelled"] else [])) []
    else
      let writeEvs : List Event :=
        if env.writeErr idx then
          (if !silent then [Event.log ("Error skipping file " ++ entry.src ++ ": <oserror>")] else [])
        else []
      let wrote : List FileEntry := if env.writeErr idx then [] else [entry]
      let progEvs : List Event :=
        if !silent then [Event.progress (((idx : Rat) + 1) / (total : Rat))] else []
      match backupGo env silent total (idx + 1) rest with
      | .cancelled evs w => .cancelled (writeEvs ++ progEvs ++ evs) (wrote ++ w)
      | .completed evs w => .completed (writeEvs ++ progEvs ++ evs) (wrote ++ w)

/-- Result of one `run_backup` call: the events delivered to the
reporting channel, the entries written into the archive, whether an
archive file exists at `full_output_path` afterwards, the paths pruned
by retention, and the Python return value (`none` models `return` with
no value, i.e. `None`). -/
structure BkOut where
  events : List Event
  written : List FileEntry
  archiveExists : Bool
  pruned : List String
  retval : Option Bool
deriving Repr, DecidableEq

/-- `SyncLogic.run_backup`, lines 171-254.  Control flow is modelled
branch by branch: drive validation, scan, the zero-file fatal case,
archive creation (a failure there is the `except` path of lines
250-254), the write loop with its cancellation checkpoint (a cancelled
run deletes the partial archive; `os.remove` is modelled as effective),
and on completion the retention pruning followed by
`finish(True, "Backup Complete")`. -/
def run_backup (env : BackupEnv) (silent : Bool) : BkOut :=
  let startEvs := if !silent then [Event.log ("--- Starting BACKUP (" ++ env.hostname ++ ") ---")] else []
  let drv := ensure_drive env.drive
  if !drv.1 then
    { events := startEvs ++ drv.2 ++ (if !silent then [Event.finish false "Drive not available"] else []),
      written := [], archiveExists := false, pruned := [], retval := none }
  else
    let scan := collectFiles env silent
    let evs0 := startEvs ++ drv.2 ++ scan.2
    if scan.1.isEmpty then
      { events := evs0 ++
          (if !silent then [Event.log "No files found to back up.",
                            Event.finish false "No files found"] else []),
        written := [], archiveExists := false, pruned := [], retval := none }
    else
      let zipName := mkArchiveName env.hostname env.timestamp
      let evs1 := evs0 ++ (if !silent then [Event.log ("Creating archive: " ++ zipName)] else [])
      if !env.zipOpenOk then
        { events := evs1 ++
            (if !silent then [Event.log ("[CRITICAL ERROR] Failed to create ZIP: " ++ env.zipOpenErrMsg),
                              Event.finish false env.zipOpenErrMsg] else []),
          written := [], archiveExists := false, pruned := [], retval := some false }
      else
        match backupGo env silent scan.1.length 0 scan.1 with
        | .cancelled evs w =>
          { events := evs1 ++ evs, written := w, archiveExists := false, pruned := [],
            retval := none }
        | .completed evs w =>
          let deleted := cleanup_old_backups env.existingArchives env.retentionCount
          let cleanEvs :=
            Event.log ("Cleaning up logic (Keep last " ++ toString env.retentionCount ++ ")...")
              :: deleted.map (fun f => Event.log ("Deleted old backup: " ++ basename f))
          { events := evs1 ++ evs ++
              (if !silent then [Event.log ("[SUCCESS] Backup saved to: " ++
                joinPath env.drive.drivePath zipName)] else []) ++
              cleanEvs ++
              (if !silent then [Event.finish true "Backup Complete"] else []),
            written := w, archiveExists := true, pruned := deleted, retval := some true }

/-- Python `str.startswith` on whole strings. -/
def strStartsWith (s pre : String) : Bool := pre.data.isPrefixOf s.data

/-- `os.path.isabs` (ntpath): after splitting a `X:` drive prefix, the
path is absolute when it begins with a slash or backslash (a UNC `\\`
path also starts with a backslash). -/
def ntIsabs (s : String) : Bool :=
  let rest : List Char :=
    match s.data with
    | a :: b :: r => if b = ':' then r else a :: b :: r
    | l => l
  match rest with
  | c :: _ => c = '/' || c = '\\'
  | [] => false

/-- Environment of one `run_restore` call: configuration reads, the
globbed archive list, the member list of the selected archive (`none`
models `zipfile.ZipFile`/`namelist` raising), and the values the
`stop_requested` flag and the per-member `zf.extract` outcome take at
each extraction index. -/
structure RestoreEnv where
  drive : DriveEnv
  baseUserPath : String
  ignorePatterns : List String
  /-- Result of `glob.glob(os.path.join(drive_path, "Antigravity_Backup_*.zip"))`. -/
  archives : List String
  /-- `zf.namelist()` of the selected newest archive; `none` when opening
  or reading it raises (the `except` path of lines 340-343). -/
  zipMembers : Option (List String)
  zipErrMsg : String
  /-- Value `self.stop_requested` reads at the checkpoint preceding
  member `idx` (line 302). -/
  stop : Nat → Bool
  /-- `zf.extract` raises `PermissionError` at member `idx` (line 315). -/
  extractPermErr : Nat → Bool
  /-- `zf.extract` raises some other exception at member `idx` (line 318). -/
  extractOtherErr : Nat → Bool

/-- Outcome of the extraction loop of `run_restore` (lines 301-338).
`extracted` records the members actually passed to `zf.extract`
(including ones whose extraction then raised and was logged). -/
inductive RsLoop where
  | cancelled (events : List Event) (extracted : List String)
  | completed (events : List Event) (extracted : List String)
deriving Repr, DecidableEq

/-- The `for idx, file in enumerate(file_list)` extraction loop: check
`stop_requested`; skip members that start with `".."` or are absolute
(the path-traversal guard of line 306); skip ignored members; call
`zf.extract` (logged-and-skipped on error); emit the
`0.1 + (idx + 1) / total * 0.9` progress snapshot. -/
def restoreGo (env : RestoreEnv) (total : Nat) : Nat → List String → RsLoop
  | _, [] => .completed [] []
  | idx, file :: rest =>
    if env.stop idx then .cancelled [Event.finish false "Cancelled"] []
    else if strStartsWith file ".." || ntIsabs file then
      restoreGo env total (idx + 1) rest
    else if should_ignore env.ignorePatterns file then
      restoreGo env total (idx + 1) rest
    else
      let extractEvs : List Event :=
        if env.extractPermErr idx then [Event.log ("⚠️ SKIPPED (Locked): " ++ file)]
        else if env.extractOtherErr idx then [Event.log ("⚠️ Error extracting " ++ file ++ ": <error>")]
        else [Event.progress ((1 : Rat) / 10 + ((idx : Rat) + 1) / (total : Rat) * (9 / 10))]
      match restoreGo env total (idx + 1) rest with
      | .cancelled evs ext => .cancelled (extractEvs ++ evs) (file :: ext)
      | .completed evs ext => .completed (extractEvs ++ evs) (file :: ext)

/-- Result of one `run_restore` call. -/
structure RsOut where
  events : List Event
  extracted : List String
deriving Repr, DecidableEq

/-- The analysis pass of `run_restore` (lines 288-298): one
`(i / total_files) * 0.1` progress snapshot per member, no other
action (the conflict check is dead code).  For an empty member list the
loop body never runs -- in particular the division by `total_files`
is never executed. -/
def analysisEvents (members : List String) : List Event :=
  (List.range members.length).map
    (fun i => Event.progress (((i : Rat) / (members.length : Rat)) * (1 / 10)))

/-- `SyncLogic.run_restore`, lines 256-350: drive validation, archive
listing (fail when none), selection of the lexicographically greatest
filename, the analysis pass and the guarded extraction loop, with the
archive-level `except` path and the final success report. -/
def run_restore (env : RestoreEnv) : RsOut :=
  let startEvs := [Event.log "--- Starting RESTORE ---"]
  let drv := ensure_drive env.drive
  if !drv.1 then
    { events := startEvs ++ drv.2 ++ [Event.finish false "Drive not available"], extracted := [] }
  else if env.archives.isEmpty then
    { events := startEvs ++ drv.2 ++
        [Event.log "No backup files found in Drive.", Event.finish false "No backups found"],
      extracted := [] }
  else
    let latest := (sortDesc env.archives).headD ""
    let fname := basename latest
    let evs1 := startEvs ++ drv.2 ++
      [Event.log ("Found latest backup: " ++ fname), Event.log "Analyzing archive..."]
    match env.zipMembers with
    | none =>
      { events := evs1 ++ [Event.log ("Zip Error: " ++ env.zipErrMsg),
                           Event.finish false env.zipErrMsg],
        extracted := [] }
    | some members =>
      match restoreGo env members.length 0 members with
      | .cancelled evs ext => { events := evs1 ++ analysisEvents members ++ evs, extracted := ext }
      | .completed evs ext =>
        { events := evs1 ++ analysisEvents members ++ evs ++
            [Event.log ("[SUCCESS] Restore completed from " ++ fname),
             Event.finish true "Restore Complete"],
          extracted := ext }

/-- `SyncLogic.abort` (lines 107-108): the only write to
`stop_requested` after construction; it sets the flag to `True`
unconditionally, and no operation ever resets it. -/
def abort (stop_requested : Bool) : Bool := true

/-- One poll observed by `SyncApp.scheduler_loop`: the current
`now.strftime("%H:%M")` value and whether the primitive thread guard
`threading.active_count() < 5` held. -/
structure SchedPoll where
  hm : String
  guardOk : Bool
deriving Repr, DecidableEq

/-- One iteration of `scheduler_loop` (lines 609-628): on
`current_hm in scheduled and current_hm != last_run_minute` the minute
is recorded as fired (always) and a silent backup thread is started
(only when the guard holds).  Returns the new `last_run_minute` and the
fired minutes. -/
def scheduler_step (scheduled : List String) (last : String) (p : SchedPoll) :
    String × List String :=
  if scheduled.contains p.hm && p.hm != last then
    (p.hm, if p.guardOk then [p.hm] else [])
  else (last, [])

/-- `scheduler_loop` run over a finite sequence of polls, starting from
`last_run_minute = ""`: returns the final `last_run_minute` and the
minutes at which a silent backup was triggered, in order. -/
def scheduler_run (scheduled : List String) (polls : List SchedPoll) : String × List String :=
  polls.foldl
    (fun acc p =>
      let st := scheduler_step scheduled acc.1 p
      (st.1, acc.2 ++ st.2))
    ("", [])

theorem insertDesc_perm (x : String) : ∀ l : List String, (insertDesc x l).Perm (x :: l) := by
  intro l
  induction l with
  | nil => simp [insertDesc]
  | cons y ys ih =>
    simp only [insertDesc]
    split
    · exact ((ih.cons y).trans (List.Perm.swap x y ys))
    · exact List.Perm.refl _

theorem sortDesc_perm : ∀ l : List String, (sortDesc l).Perm l := by
  intro l
  induction l with
  | nil => simp [sortDesc]
  | cons x xs ih =>
    simp only [sortDesc, List.foldr_cons]
    exact (insertDesc_perm x _).trans (ih.cons x)

theorem mem_insertDesc {a x : String} {l : List String} :
    a ∈ insertDesc x l ↔ a = x ∨ a ∈ l := by
  have := (insertDesc_perm x l).mem_iff (a := a)
  simpa using this

theorem strGe_of_not_strLt {x y : String} (h : strLt x y = false) : strGe x y = true := by
  simp [strGe, h]

theorem strGe_of_strLt {x y : String} (h : strLt x y = true) : strGe y x = true := by
  simp only [strGe, strLt, Bool.not_eq_true']
  exact lexLt_asymm _ _ h

theorem insertDesc_pairwise {x : String} {l : List String}
    (h : l.Pairwise (fun a b => strGe a b = true)) :
    (insertDesc x l).Pairwise (fun a b => strGe a b = true) := by
  induction l with
  | nil => simp [insertDesc]
  | cons y ys ih =>
    rw [List.pairwise_cons] at h
    obtain ⟨hy, hys⟩ := h
    simp only [insertDesc]
    split
    · next hlt =>
      rw [List.pairwise_cons]
      refine ⟨?_, ih hys⟩
      intro a ha
      rcases mem_insertDesc.mp ha with rfl | ha
      · exact strGe_of_strLt hlt
      · exact hy a ha
    · next hlt =>
      rw [List.pairwise_cons]
      refine ⟨?_, List.Pairwise.cons hy hys⟩
      intro a ha
      rcases List.mem_cons.mp ha with rfl | ha
      · exact strGe_of_not_strLt (by simpa using hlt)
      · exact strGe_trans _ _ _ (strGe_of_not_strLt (by simpa using hlt)) (hy a ha)

theorem sortDesc_pairwise : ∀ l : List String,
    (sortDesc l).Pairwise (fun a b => strGe a b = true) := by
  intro l
  induction l with
  | nil => simp [sortDesc]
  | cons x xs ih =>
    simp only [sortDesc, List.foldr_cons]
    exact insertDesc_pairwise ih

/-- **C2.** For every set of archive files and every retention count,
`cleanup_old_backups` deletes exactly `max(0, N − R)` archives (in `Nat`
arithmetic, `files.length - count`), deletes only entries that compare
`≤` (i.e. older, by descending-filename order) than every kept entry,
and never deletes any of the newest `R` (the first `count` entries of
the descending-sorted list). -/
theorem cleanup_retention (files : List String) (count : Nat) (hnd : files.Nodup) :
    (cleanup_old_backups files count).length = files.length - count ∧
    (∀ f ∈ cleanup_old_backups files count, ∀ g ∈ (sortDesc files).take count,
      strGe g f = true) ∧
    (∀ g ∈ (sortDesc files).take count, g ∉ cleanup_old_backups files count) := by
  have hperm := sortDesc_perm files
  have hlen : (sortDesc files).length = files.length := hperm.length_eq
  have hsorted := sortDesc_pairwise files
  have hnd' : (sortDesc files).Nodup := (hperm.nodup_iff).mpr hnd
  constructor
  · simp only [cleanup_old_backups]
    split
    · next h => simp [List.length_drop, hlen]
    · next h =>
      rw [hlen] at h
      simp only [List.length_nil]
      omega
  · constructor
    · intro f hf g hg
      simp only [cleanup_old_backups] at hf
      split at hf
      · have hsplit : sortDesc files = (sortDesc files).take count ++ (sortDesc files).drop count :=
          (List.take_append_drop count (sortDesc files)).symm
        rw [hsplit] at hsorted
        rw [List.pairwise_append] at hsorted
        exact hsorted.2.2 g hg f hf
      · simp at hf
    · intro g hg hgdel
      simp only [cleanup_old_backups] at hgdel
      split at hgdel
      · have hsplit : sortDesc files = (sortDesc files).take count ++ (sortDesc files).drop count :=
          (List.take_append_drop count (sortDesc files)).symm
        rw [hsplit] at hnd'
        rw [List.nodup_append] at hnd'
        exact hnd'.2.2 hg hgdel
      · simp at hgdel

/-- Witness for C2 at a concrete input. -/
theorem cleanup_retention_witness :
    (["Antigravity_Backup_PC_20240101_000000.zip",
      "Antigravity_Backup_PC_20240301_000000.zip",
      "Antigravity_Backup_PC_20240201_000000.zip"] : List String).Nodup ∧
    cleanup_old_backups
      ["Antigravity_Backup_PC_20240101_000000.zip",
       "Antigravity_Backup_PC_20240301_000000.zip",
       "Antigravity_Backup_PC_20240201_000000.zip"] 2 =
      ["Antigravity_Backup_PC_20240101_000000.zip"] ∧
    (cleanup_old_backups
      ["Antigravity_Backup_PC_20240101_000000.zip",
       "Antigravity_Backup_PC_20240301_000000.zip",
       "Antigravity_Backup_PC_20240201_000000.zip"] 2).length = 3 - 2 := by
  refine ⟨by decide, by decide, ?_⟩
  exact (cleanup_retention _ 2 (by decide)).1

/-- **C5.** `should_ignore` returns `true` iff some segment of the path
-- after normalizing `\` and `/` to a single separator and splitting --
matches some configured pattern under glob (`fnmatch`) semantics.  The
embedding is a pure function, so the call has no side effects. -/
theorem should_ignore_iff (patterns : List String) (path : String) :
    should_ignore patterns path = true ↔
      ∃ part ∈ pathParts path, ∃ p ∈ patterns, fnmatch part p = true := by
  simp [should_ignore, List.any_eq_true]

/-- **C7** (code evaluation at the failing input).  With the single
scheduled time `"10:00"` and polls observing minutes
`10:00, 10:01, 10:00` (thread guard always free), the scheduler fires
only at the first poll: `last_run_minute` is still `"10:00"` when the
clock returns to `10:00`, so the claimed re-arming after the minute
changes away and back does not happen. -/
theorem scheduler_single_time_never_refires :
    scheduler_run ["10:00"]
        [{ hm := "10:00", guardOk := true },
         { hm := "10:01", guardOk := true },
         { hm := "10:00", guardOk := true }] =
      ("10:00", ["10:00"]) := by
  decide

theorem lexLt_cons_same (c : Char) (b d : List Char) :
    lexLt (c :: b) (c :: d) = lexLt b d := by
  simp [lexLt]

theorem lexLt_append_same : ∀ a b c : List Char, lexLt (a ++ b) (a ++ c) = lexLt b c := by
  intro a b c
  induction a with
  | nil => rfl
  | cons x xs ih => simpa [lexLt_cons_same] using ih

theorem lexLt_append_of_ne : ∀ l1 l2 r1 r2 : List Char, l1.length = l2.length → l1 ≠ l2 →
    lexLt (l1 ++ r1) (l2 ++ r2) = lexLt l1 l2 := by
  intro l1
  induction l1 with
  | nil =>
    intro l2 r1 r2 hlen hne
    cases l2 with
    | nil => exact absurd rfl hne
    | cons y ys => simp at hlen
  | cons x xs ih =>
    intro l2 r1 r2 hlen hne
    cases l2 with
    | nil => simp at hlen
    | cons y ys =>
      rcases Nat.lt_trichotomy x.toNat y.toNat with h | h | h
      · simp [lexLt, h]
      · have hxy : x = y := char_eq_of_toNat_eq h
        subst hxy
        have hne' : xs ≠ ys := by
          intro hc
          exact hne (by rw [hc])
        simp only [List.cons_append, lexLt_cons_same]
        exact ih ys r1 r2 (by simpa using hlen) hne'
      · simp [lexLt, Nat.lt_asymm h, h]

theorem padNum_length : ∀ k n, (padNum k n).length = k := by
  intro k
  induction k with
  | zero => intro n; rfl
  | succ k ih => intro n; simp [padNum, ih]

theorem digitChar_lt_iff : ∀ d < 10, ∀ e < 10,
    (((Nat.digitChar d).toNat < (Nat.digitChar e).toNat) ↔ d < e) := by
  decide

theorem padNum_lt_iff : ∀ k a b, a < 10 ^ k → b < 10 ^ k →
    (lexLt (padNum k a) (padNum k b) = true ↔ a < b) := by
  intro k
  induction k with
  | zero =>
    intro a b ha hb
    interval_cases a
    interval_cases b
    simp [padNum, lexLt]
  | succ k ih =>
    intro a b ha hb
    have hpow : 0 < 10 ^ k := Nat.pos_pow_of_pos k (by omega)
    have hda : a / 10 ^ k < 10 := by
      rw [Nat.div_lt_iff_lt_mul hpow]
      calc a < 10 ^ (k + 1) := ha
        _ = 10 ^ k * 10 := by rw [Nat.pow_succ]
        _ = 10 * 10 ^ k := by ring
    have hdb : b / 10 ^ k < 10 := by
      rw [Nat.div_lt_iff_lt_mul hpow]
      calc b < 10 ^ (k + 1) := hb
        _ = 10 ^ k * 10 := by rw [Nat.pow_succ]
        _ = 10 * 10 ^ k := by ring
    have hma := Nat.mod_lt a (y := 10 ^ k) hpow
    have hmb := Nat.mod_lt b (y := 10 ^ k) hpow
    have hadm := Nat.div_add_mod a (10 ^ k)
    have hbdm := Nat.div_add_mod b (10 ^ k)
    rcases Nat.lt_trichotomy (a / 10 ^ k) (b / 10 ^ k) with h | h | h
    · have hab : a < b := by
        have hstep : 10 ^ k * (a / 10 ^ k) + 10 ^ k ≤ 10 ^ k * (b / 10 ^ k) := by
          have h1 : a / 10 ^ k + 1 ≤ b / 10 ^ k := h
          calc 10 ^ k * (a / 10 ^ k) + 10 ^ k = 10 ^ k * (a / 10 ^ k + 1) := by ring
            _ ≤ 10 ^ k * (b / 10 ^ k) := Nat.mul_le_mul_left _ h1
        omega
      have hc : (Nat.digitChar (a / 10 ^ k)).toNat < (Nat.digitChar (b / 10 ^ k)).toNat :=
        (digitChar_lt_iff _ hda _ hdb).mpr h
      simp [padNum, lexLt, hc, hab]
    · simp only [padNum]
      rw [h, lexLt_cons_same, ih _ _ hma hmb]
      rw [h] at hadm
      omega
    · have hba : ¬ a < b := by
        have hstep : 10 ^ k * (b / 10 ^ k) + 10 ^ k ≤ 10 ^ k * (a / 10 ^ k) := by
          have h1 : b / 10 ^ k + 1 ≤ a / 10 ^ k := h
          calc 10 ^ k * (b / 10 ^ k) + 10 ^ k = 10 ^ k * (b / 10 ^ k + 1) := by ring
            _ ≤ 10 ^ k * (a / 10 ^ k) := Nat.mul_le_mul_left _ h1
        omega
      have hc1 : ¬ (Nat.digitChar (a / 10 ^ k)).toNat < (Nat.digitChar (b / 10 ^ k)).toNat := by
        rw [digitChar_lt_iff _ hda _ hdb]; omega
      have hc2 : (Nat.digitChar (b / 10 ^ k)).toNat < (Nat.digitChar (a / 10 ^ k)).toNat :=
        (digitChar_lt_iff _ hdb _ hda).mpr h
      simp [padNum, lexLt, hc1, hc2, hba]

theorem padNum_lt_eq_decide (k a b : Nat) (ha : a < 10 ^ k) (hb : b < 10 ^ k) :
    lexLt (padNum k a) (padNum k b) = decide (a < b) := by
  cases hd : decide (a < b) with
  | true =>
    exact (padNum_lt_iff k a b ha hb).mpr (of_decide_eq_true hd)
  | false =>
    cases hl : lexLt (padNum k a) (padNum k b) with
    | false => rfl
    | true =>
      have := (padNum_lt_iff k a b ha hb).mp hl
      rw [decide_eq_true this] at hd
      cases hd

theorem padNum_ne (k a b : Nat) (ha : a < 10 ^ k) (hb : b < 10 ^ k) (hne : a ≠ b) :
    padNum k a ≠ padNum k b := by
  intro hc
  rcases Nat.lt_or_ge a b with h | h
  · have := (padNum_lt_iff k a b ha hb).mpr h
    rw [hc, lexLt_irrefl] at this
    cases this
  · have hba : b < a := by omega
    have := (padNum_lt_iff k b a hb ha).mpr hba
    rw [hc, lexLt_irrefl] at this
    cases this

theorem lexLt_pad_comp (k a b : Nat) (r1 r2 : List Char) (ha : a < 10 ^ k) (hb : b < 10 ^ k) :
    lexLt (padNum k a ++ r1) (padNum k b ++ r2) =
      if a = b then lexLt r1 r2 else decide (a < b) := by
  by_cases hab : a = b
  · subst hab
    rw [lexLt_append_same, if_pos rfl]
  · rw [lexLt_append_of_ne _ _ _ _ (by rw [padNum_length, padNum_length])
      (padNum_ne k a b ha hb hab), padNum_lt_eq_decide k a b ha hb, if_neg hab]

/-- Pointwise form of C3: for a fixed hostname and in-range timestamps,
Python string `<` on the generated archive filenames coincides with
chronological order of the timestamps. -/
theorem mkArchiveName_lt_eq (h : String) (t u : DateTime)
    (ht : ValidDT t) (hu : ValidDT u) :
    strLt (mkArchiveName h t) (mkArchiveName h u) = chronLt t u := by
  obtain ⟨hty1, hty2, htm1, htm2, htd1, htd2, hth, htmin, hts⟩ := ht
  obtain ⟨huy1, huy2, hum1, hum2, hud1, hud2, huh, humin, hus⟩ := hu
  have hty : t.year < 10 ^ 4 := by norm_num; omega
  have huy : u.year < 10 ^ 4 := by norm_num; omega
  have htm : t.month < 10 ^ 2 := by norm_num; omega
  have hum : u.month < 10 ^ 2 := by norm_num; omega
  have htd : t.day < 10 ^ 2 := by norm_num; omega
  have hud : u.day < 10 ^ 2 := by norm_num; omega
  have hth2 : t.hour < 10 ^ 2 := by norm_num; omega
  have huh2 : u.hour < 10 ^ 2 := by norm_num; omega
  have htmin2 : t.minute < 10 ^ 2 := by norm_num; omega
  have humin2 : u.minute < 10 ^ 2 := by norm_num; omega
  have hts2 : t.second < 10 ^ 2 := by norm_num; omega
  have hus2 : u.second < 10 ^ 2 := by norm_num; omega
  simp only [strLt, mkArchiveName, String.data_append, strftimeTS, List.append_assoc,
    lexLt_append_same]
  rw [lexLt_pad_comp 4 _ _ _ _ hty huy]
  split
  case isFalse hy => simp [chronLt, hy]
  case isTrue hy =>
  rw [lexLt_pad_comp 2 _ _ _ _ htm hum]
  split
  case isFalse hmo => simp [chronLt, hy, hmo]
  case isTrue hmo =>
  rw [lexLt_pad_comp 2 _ _ _ _ htd hud]
  split
  case isFalse hd => simp [chronLt, hy, hmo, hd]
  case isTrue hd =>
  rw [List.cons_append, List.cons_append, lexLt_cons_same]
  simp only [List.append_assoc]
  rw [lexLt_pad_comp 2 _ _ _ _ hth2 huh2]
  split
  case isFalse hh => simp [chronLt, hy, hmo, hd, hh]
  case isTrue hh =>
  rw [lexLt_pad_comp 2 _ _ _ _ htmin2 humin2]
  split
  case isFalse hmi => simp [chronLt, hy, hmo, hd, hh, hmi]
  case isTrue hmi =>
  rw [lexLt_pad_comp 2 _ _ _ _ hts2 hus2]
  split
  case isFalse hs => simp [chronLt, hy, hmo, hd, hh, hmi, hs]
  case isTrue hs =>
  rw [lexLt_irrefl]
  simp [chronLt, hy, hmo, hd, hh, hmi, hs]

/-- **C3.** For a fixed hostname (one engine instance), archive filenames
generated by the naming scheme compare by Python string `<` exactly as
their creation timestamps compare chronologically; consequently a list
of such filenames is in descending lexicographic order iff the
underlying timestamps are in descending chronological order, and the
lexicographically greatest filename is the newest backup. -/
theorem filename_order_chronological (h : String) :
    (∀ t u : DateTime, ValidDT t → ValidDT u →
      (strLt (mkArchiveName h t) (mkArchiveName h u) = true ↔ chronLt t u = true)) ∧
    (∀ l : List DateTime, (∀ t ∈ l, ValidDT t) →
      ((l.map (mkArchiveName h)).Pairwise (fun a b => strLt a b = false) ↔
        l.Pairwise (fun t u => chronLt t u = false))) := by
  constructor
  · intro t u ht hu
    rw [mkArchiveName_lt_eq h t u ht hu]
  · intro l hl
    rw [List.pairwise_map]
    constructor
    · intro hp
      refine List.Pairwise.imp_of_mem ?_ hp
      intro t u htm hum hlt
      rw [← mkArchiveName_lt_eq h t u (hl t htm) (hl u hum)]
      exact hlt
    · intro hp
      refine List.Pairwise.imp_of_mem ?_ hp
      intro t u htm hum hlt
      rw [mkArchiveName_lt_eq h t u (hl t htm) (hl u hum)]
      exact hlt

/-- Witness for C3 at concrete timestamps one second apart. -/
theorem filename_order_chronological_witness :
    ValidDT ⟨2024, 5, 1, 10, 0, 0⟩ ∧ ValidDT ⟨2024, 5, 1, 10, 0, 1⟩ ∧
    (strLt (mkArchiveName "DESKTOP" ⟨2024, 5, 1, 10, 0, 0⟩)
        (mkArchiveName "DESKTOP" ⟨2024, 5, 1, 10, 0, 1⟩) = true ↔
      chronLt ⟨2024, 5, 1, 10, 0, 0⟩ ⟨2024, 5, 1, 10, 0, 1⟩ = true) :=
  ⟨by decide, by decide,
    (filename_order_chronological "DESKTOP").1 _ _ (by decide) (by decide)⟩

theorem backupGo_cancel (env : BackupEnv) (silent : Bool) (total : Nat) :
    ∀ (files : List FileEntry) (idx K : Nat), idx ≤ K → K < idx + files.length →
    (∀ j, idx ≤ j → j < K → env.stop j = false) →
    env.stop K = true →
    (∀ j, idx ≤ j → j < K → env.writeErr j = false) →
    ∃ evs, backupGo env silent total idx files = .cancelled evs (files.take (K - idx)) ∧
      (silent = false → Event.finish false "Cancelled" ∈ evs) := by
  intro files
  induction files with
  | nil =>
    intro idx K h1 h2 _ _ _
    simp only [List.length_nil] at h2
    omega
  | cons e rest ih =>
    intro idx K h1 h2 hstop hK hwrite
    rcases Nat.eq_or_lt_of_le h1 with rfl | hlt
    · refine ⟨(if !silent then [Event.log "Backup Cancelled."] else []) ++
        (if !silent then [Event.finish false "Cancelled"] else []), ?_, ?_⟩
      · simp [backupGo, hK]
      · intro hs; subst hs; simp
    · have hstop0 : env.stop idx = false := hstop idx (Nat.le_refl idx) hlt
      have hwrite0 : env.writeErr idx = false := hwrite idx (Nat.le_refl idx) hlt
      obtain ⟨evs, heq, hmem⟩ := ih (idx + 1) K hlt
        (by simp only [List.length_cons] at h2; omega)
        (fun j hj1 hj2 => hstop j (by omega) hj2)
        hK
        (fun j hj1 hj2 => hwrite j (by omega) hj2)
      refine ⟨(if env.writeErr idx then
          (if !silent then [Event.log ("Error skipping file " ++ e.src ++ ": <oserror>")] else [])
        else []) ++
        (if !silent then [Event.progress (((idx : Rat) + 1) / (total : Rat))] else []) ++ evs,
        ?_, fun hs => List.mem_append.mpr (Or.inr (hmem hs))⟩
      have htake : K - idx = (K - (idx + 1)) + 1 := by omega
      simp only [backupGo, hstop0, Bool.false_eq_true, if_false, hwrite0, heq]
      rw [htake, List.take_succ_cons]
      simp

/-- **C4.** If cancellation is requested after `K` of `N` collected files
have been written (the flag reads `false` at the first `K` checkpoints
and `true` at checkpoint `K < N`, with no per-file write error before
that), then the interactive backup run leaves no archive file at the
destination, has written exactly the first `K` entries, and emits
`finish(False, "Cancelled")` -- a message the UI treats as distinct from
ordinary failure (`on_finish` shows no error dialog for it). -/
theorem backup_cancel_no_archive (env : BackupEnv) (K : Nat)
    (hdrv : (ensure_drive env.drive).1 = true)
    (hzip : env.zipOpenOk = true)
    (hK : K < (collectFiles env false).1.length)
    (hstop : ∀ j, j < K → env.stop j = false)
    (hstopK : env.stop K = true)
    (hwrite : ∀ j, j < K → env.writeErr j = false) :
    (run_backup env false).archiveExists = false ∧
    Event.finish false "Cancelled" ∈ (run_backup env false).events ∧
    (run_backup env false).written = (collectFiles env false).1.take K := by
  have hne : (collectFiles env false).1.isEmpty = false := by
    cases hc : (collectFiles env false).1 with
    | nil => rw [hc] at hK; simp at hK
    | cons a l => simp
  obtain ⟨evs, heq, hmem⟩ := backupGo_cancel env false (collectFiles env false).1.length
    (collectFiles env false).1 0 K (Nat.zero_le K) (by omega)
    (fun j _ hj => hstop j hj) hstopK (fun j _ hj => hwrite j hj)
  simp only [run_backup, hdrv, Bool.not_true, Bool.false_eq_true, if_false, hne, hzip,
    Bool.not_false, if_true, heq]
  refine ⟨trivial, ?_, by simp⟩
  simp only [List.mem_append]
  exact Or.inr (hmem rfl)

/-- **C6.** If the scan collects zero file entries across all configured
source folders (and the drive check passed), the interactive run emits
`finish(False, "No files found")`, creates no archive, and returns no
value. -/
theorem backup_no_files (env : BackupEnv)
    (hdrv : (ensure_drive env.drive).1 = true)
    (hempty : (collectFiles env false).1 = []) :
    Event.finish false "No files found" ∈ (run_backup env false).events ∧
    (run_backup env false).archiveExists = false ∧
    (run_backup env false).retval = none := by
  have hne : (collectFiles env false).1.isEmpty = true := by rw [hempty]; rfl
  simp only [run_backup, hdrv, Bool.not_true, Bool.false_eq_true, if_false, hne, if_true]
  refine ⟨?_, by trivial, by trivial⟩
  simp

/-- **C9.** `abort` sets `stop_requested` to `True` and nothing ever
resets it (the runs only read the flag).  Consequently, on an instance
whose flag reads `true` at every checkpoint, any backup run that reaches
its first per-entry checkpoint (drive available, at least one entry
collected, archive opened) cancels there: nothing is written, the
partial archive is removed, the return value is `None`, and the
interactive run reports `finish(False, "Cancelled")`; any restore run
that reaches its first per-member checkpoint likewise cancels with
`finish(False, "Cancelled")` and extracts nothing. -/
theorem abort_sticky_cancellation :
    (∀ b : Bool, abort b = true) ∧
    (∀ (env : BackupEnv) (silent : Bool),
      (∀ j, env.stop j = true) →
      (ensure_drive env.drive).1 = true →
      (collectFiles env silent).1 ≠ [] →
      env.zipOpenOk = true →
      (run_backup env silent).written = [] ∧
      (run_backup env silent).archiveExists = false ∧
      (run_backup env silent).retval = none ∧
      (silent = false → Event.finish false "Cancelled" ∈ (run_backup env silent).events)) ∧
    (∀ (env : RestoreEnv) (members : List String),
      (∀ j, env.stop j = true) →
      (ensure_drive env.drive).1 = true →
      env.archives ≠ [] →
      env.zipMembers = some members →
      members ≠ [] →
      (run_restore env).extracted = [] ∧
      Event.finish false "Cancelled" ∈ (run_restore env).events) := by
  refine ⟨fun b => rfl, ?_, ?_⟩
  · intro env silent hstop hdrv hne hzip
    have hne' : (collectFiles env silent).1.isEmpty = false := by
      cases hc : (collectFiles env silent).1 with
      | nil => exact absurd hc hne
      | cons a l => simp
    have hlen : 0 < (collectFiles env silent).1.length := by
      cases hc : (collectFiles env silent).1 with
      | nil => exact absurd hc hne
      | cons a l => simp
    obtain ⟨evs, heq, hmem⟩ := backupGo_cancel env silent (collectFiles env silent).1.length
      (collectFiles env silent).1 0 0 (Nat.le_refl 0) (by omega)
      (fun j h1 h2 => by omega) (hstop 0) (fun j h1 h2 => by omega)
    simp only [run_backup, hdrv, Bool.not_true, Bool.false_eq_true, if_false, hne', hzip,
      Bool.not_false, if_true, heq]
    refine ⟨by simp, by trivial, by trivial, fun hs => ?_⟩
    simp only [List.mem_append]
    exact Or.inr (hmem hs)
  · intro env members hstop hdrv harch hzm hne
    have harch' : env.archives.isEmpty = false := by
      cases hc : env.archives with
      | nil => exact absurd hc harch
      | cons a l => simp
    cases members with
    | nil => exact absurd rfl hne
    | cons m rest =>
      have hloop : restoreGo env (m :: rest).length 0 (m :: rest) =
          .cancelled [Event.finish false "Cancelled"] [] := by
        simp [restoreGo, hstop 0]
      simp only [run_restore, hdrv, Bool.not_true, Bool.false_eq_true, if_false, harch',
        hzm, hloop]
      refine ⟨by trivial, ?_⟩
      simp

/-- A healthy storage root. -/
def drvOkEnv : DriveEnv :=
  { drivePath := "G:/MyDrive/AntigravitySync", driveExists := true, makedirsOk := true,
    mkdirErrMsg := "" }

/-- An unconfigured storage root (`drive_path` empty):
`ensure_drive` fails. -/
def drvNoneEnv : DriveEnv :=
  { drivePath := "", driveExists := false, makedirsOk := false, mkdirErrMsg := "" }

/-- A backup environment with two collectable files and no cancellation
or error. -/
def bkEnvTwoFiles : BackupEnv :=
  { drive := drvOkEnv, hostname := "DESKTOP", baseUserPath := "C:/Users/user",
    timestamp := ⟨2025, 1, 1, 12, 0, 0⟩, targetFolders := [".gemini"],
    ignorePatterns := ["*.tmp"],
    retentionCount := 2,
    fs := fun f => if f = ".gemini" then some (.node ["a.txt", "b.txt"] []) else none,
    existingArchives := [], zipOpenOk := true, zipOpenErrMsg := "",
    stop := fun _ => false, writeErr := fun _ => false }

/-- Same as `bkEnvTwoFiles` but cancellation is requested after the
first file is written. -/
def bkEnvCancelAt1 : BackupEnv := { bkEnvTwoFiles with stop := fun i => decide (1 ≤ i) }

/-- Same as `bkEnvTwoFiles` but `abort` ran before the run: the flag
reads `true` at every checkpoint. -/
def bkEnvAborted : BackupEnv := { bkEnvTwoFiles with stop := fun _ => true }

/-- A backup environment whose source folders do not exist. -/
def bkEnvNoFolders : BackupEnv := { bkEnvTwoFiles with fs := fun _ => none }

/-- A backup environment with an unconfigured storage root. -/
def bkEnvNoDrive : BackupEnv := { bkEnvTwoFiles with drive := drvNoneEnv }

/-- A restore environment with one archive whose member list is
`["../../evil.txt", "C:/boot.ini", ".antigravity/ok.txt"]`. -/
def rsEnvEvil : RestoreEnv :=
  { drive := drvOkEnv, baseUserPath := "C:/Users/user", ignorePatterns := ["*.tmp"],
    archives := ["Antigravity_Backup_DESKTOP_20250101_120000.zip"],
    zipMembers := some ["../../evil.txt", "C:/boot.ini", ".antigravity/ok.txt"],
    zipErrMsg := "", stop := fun _ => false, extractPermErr := fun _ => false,
    extractOtherErr := fun _ => false }

/-- A restore environment whose selected archive has zero members. -/
def rsEnvEmptyZip : RestoreEnv := { rsEnvEvil with zipMembers := some [] }

/-- A restore environment on an aborted instance (flag reads `true`). -/
def rsEnvAborted : RestoreEnv := { rsEnvEvil with stop := fun _ => true }

/-- Witness for C4: cancelling `bkEnvCancelAt1` after 1 of its 2 files
leaves no archive, emits `finish(False, "Cancelled")`, and has written
exactly the first entry. -/
theorem backup_cancel_no_archive_witness :
    (run_backup bkEnvCancelAt1 false).archiveExists = false ∧
    Event.finish false "Cancelled" ∈ (run_backup bkEnvCancelAt1 false).events ∧
    (run_backup bkEnvCancelAt1 false).written = (collectFiles bkEnvCancelAt1 false).1.take 1 :=
  backup_cancel_no_archive bkEnvCancelAt1 1 (by decide) (by decide) (by decide)
    (by decide) (by decide) (by decide)

/-- Witness for C6 at `bkEnvNoFolders`. -/
theorem backup_no_files_witness :
    Event.finish false "No files found" ∈ (run_backup bkEnvNoFolders false).events ∧
    (run_backup bkEnvNoFolders false).archiveExists = false ∧
    (run_backup bkEnvNoFolders false).retval = none :=
  backup_no_files bkEnvNoFolders (by decide) (by decide)

/-- Witness for C9 at `bkEnvAborted` and `rsEnvAborted`. -/
theorem abort_sticky_cancellation_witness :
    ((run_backup bkEnvAborted false).written = [] ∧
      (run_backup bkEnvAborted false).archiveExists = false ∧
      (run_backup bkEnvAborted false).retval = none ∧
      (false = false → Event.finish false "Cancelled" ∈ (run_backup bkEnvAborted false).events)) ∧
    ((run_restore rsEnvAborted).extracted = [] ∧
      Event.finish false "Cancelled" ∈ (run_restore rsEnvAborted).events) :=
  ⟨abort_sticky_cancellation.2.1 bkEnvAborted false (fun _ => rfl) (by decide) (by decide)
      (by decide),
    abort_sticky_cancellation.2.2 rsEnvAborted
      ["../../evil.txt", "C:/boot.ini", ".antigravity/ok.txt"]
      (fun _ => rfl) (by decide) (by decide) (by decide) (by decide)⟩

theorem backupGo_completed (env : BackupEnv) (silent : Bool) (total : Nat) :
    ∀ (files : List FileEntry) (idx : Nat), (∀ j, env.stop j = false) →
      ∃ evs w, backupGo env silent total idx files = .completed evs w := by
  intro files
  induction files with
  | nil => intro idx _; exact ⟨[], [], rfl⟩
  | cons e rest ih =>
    intro idx hstop
    obtain ⟨evs, w, heq⟩ := ih (idx + 1) hstop
    refine ⟨(if env.writeErr idx then
        (if !silent then [Event.log ("Error skipping file " ++ e.src ++ ": <oserror>")] else [])
      else []) ++
      (if !silent then [Event.progress (((idx : Rat) + 1) / (total : Rat))] else []) ++ evs,
      (if env.writeErr idx then [] else [e]) ++ w, ?_⟩
    simp only [backupGo, hstop idx, Bool.false_eq_true, if_false, heq]

/-- **C8 counterexample.** `run_backup` does not always return a
boolean: with the storage root unavailable (the claim's "drive
unavailable" failure outcome) it executes a bare `return`, i.e. returns
Python `None`, not `False`. -/
theorem run_backup_bool_counterexample :
    ¬ ∃ b : Bool, (run_backup bkEnvNoDrive false).retval = some b := by
  decide

/-- **C8 (amended).**  `run_backup` returns `True` on a completed backup
and `False` when archive construction raises unexpectedly, but returns
no value (Python `None`) on the drive-unavailable, no-files-found and
cancelled outcomes. -/
theorem run_backup_retval_spec :
    (∀ (env : BackupEnv) (silent : Bool),
      (ensure_drive env.drive).1 = false → (run_backup env silent).retval = none) ∧
    (∀ (env : BackupEnv) (silent : Bool),
      (ensure_drive env.drive).1 = true → (collectFiles env silent).1 = [] →
      (run_backup env silent).retval = none) ∧
    (∀ (env : BackupEnv) (silent : Bool),
      (ensure_drive env.drive).1 = true → (collectFiles env silent).1 ≠ [] →
      env.zipOpenOk = false → (run_backup env silent).retval = some false) ∧
    (∀ (env : BackupEnv) (silent : Bool) (evs : List Event) (w : List FileEntry),
      (ensure_drive env.drive).1 = true → (collectFiles env silent).1 ≠ [] →
      env.zipOpenOk = true →
      backupGo env silent (collectFiles env silent).1.length 0 (collectFiles env silent).1 =
        .cancelled evs w →
      (run_backup env silent).retval = none) ∧
    (∀ (env : BackupEnv) (silent : Bool) (evs : List Event) (w : List FileEntry),
      (ensure_drive env.drive).1 = true → (collectFiles env silent).1 ≠ [] →
      env.zipOpenOk = true →
      backupGo env silent (collectFiles env silent).1.length 0 (collectFiles env silent).1 =
        .completed evs w →
      (run_backup env silent).retval = some true) := by
  have hepty : ∀ (l : List FileEntry), l ≠ [] → l.isEmpty = false := by
    intro l hl
    cases l with
    | nil => exact absurd rfl hl
    | cons a t => simp
  refine ⟨?_, ?_, ?_, ?_, ?_⟩
  · intro env silent hdrv
    simp [run_backup, hdrv]
  · intro env silent hdrv hempty
    simp [run_backup, hdrv, hempty]
  · intro env silent hdrv hne hzip
    simp [run_backup, hdrv, hepty _ hne, hzip]
  · intro env silent evs w hdrv hne hzip hloop
    simp [run_backup, hdrv, hepty _ hne, hzip, hloop]
  · intro env silent evs w hdrv hne hzip hloop
    simp [run_backup, hdrv, hepty _ hne, hzip, hloop]

/-- Witness for the amended C8: evaluating the characterized paths at
concrete environments. -/
theorem run_backup_retval_spec_witness :
    (run_backup bkEnvNoDrive false).retval = none ∧
    (run_backup bkEnvNoFolders false).retval = none ∧
    (run_backup { bkEnvTwoFiles with zipOpenOk := false } false).retval = some false ∧
    (run_backup bkEnvAborted false).retval = none ∧
    (run_backup bkEnvTwoFiles false).retval = some true :=
  ⟨run_backup_retval_spec.1 bkEnvNoDrive false (by decide),
   run_backup_retval_spec.2.1 bkEnvNoFolders false (by decide) (by decide),
   run_backup_retval_spec.2.2.1 _ false (by decide) (by decide) (by decide),
   run_backup_retval_spec.2.2.2.1 bkEnvAborted false
     ([Event.log "Backup Cancelled.", Event.finish false "Cancelled"]) []
     (by decide) (by decide) (by decide) (by decide),
   by
     obtain ⟨evs, w, hloop⟩ := backupGo_completed bkEnvTwoFiles false
       (collectFiles bkEnvTwoFiles false).1.length (collectFiles bkEnvTwoFiles false).1 0
       (fun _ => rfl)
     exact run_backup_retval_spec.2.2.2.2 bkEnvTwoFiles false evs w
       (by decide) (by decide) (by decide) hloop⟩

theorem restoreGo_not_extracted (env : RestoreEnv) (total : Nat) (file : String)
    (hfile : (strStartsWith file ".." || ntIsabs file) = true) :
    ∀ (members : List String) (idx : Nat) (evs : List Event) (ext : List String),
      (restoreGo env total idx members = .cancelled evs ext → file ∉ ext) ∧
      (restoreGo env total idx members = .completed evs ext → file ∉ ext) := by
  intro members
  induction members with
  | nil =>
    intro idx evs ext
    constructor
    · intro h; simp [restoreGo] at h
    · intro h
      simp only [restoreGo] at h
      cases h
      simp
  | cons m rest ih =>
    intro idx evs ext
    have hne : ∀ hm : (strStartsWith m ".." || ntIsabs m) = false, file ≠ m := by
      intro hm hc
      subst hc
      rw [hfile] at hm
      cases hm
    constructor
    · intro h
      simp only [restoreGo] at h
      split at h
      · cases h; simp
      · split at h
        · exact (ih (idx + 1) evs ext).1 h
        · split at h
          · exact (ih (idx + 1) evs ext).1 h
          · split at h
            · next evs2 ext2 heq =>
              cases h
              next hguard _ _ =>
              simp only [List.mem_cons, not_or]
              exact ⟨hne (by simpa using hguard), (ih (idx + 1) _ _).1 heq⟩
            · cases h
    · intro h
      simp only [restoreGo] at h
      split at h
      · cases h
      · split at h
        · exact (ih (idx + 1) evs ext).2 h
        · split at h
          · exact (ih (idx + 1) evs ext).2 h
          · split at h
            · cases h
            · next evs2 ext2 heq =>
              cases h
              next hguard _ _ =>
              simp only [List.mem_cons, not_or]
              exact ⟨hne (by simpa using hguard), (ih (idx + 1) _ _).2 heq⟩

/-- **C1.** Any archive member whose path is absolute or begins with a
leading `..` segment (including the bare `".."`) is never passed to
`zf.extract` by `run_restore`: the guard
`file.startswith("..") or os.path.isabs(file)` skips it, so it is never
extracted anywhere (inside or outside the target root). -/
theorem restore_traversal_guard (env : RestoreEnv) (file : String)
    (hfile : ntIsabs file = true ∨ strStartsWith file "../" = true ∨
      strStartsWith file "..\\" = true ∨ file = "..") :
    file ∉ (run_restore env).extracted := by
  have hguard : (strStartsWith file ".." || ntIsabs file) = true := by
    rcases hfile with h | h | h | h
    · simp [h]
    · refine Bool.or_eq_true_iff.mpr (Or.inl ?_)
      have h2 : "../".data <+: file.data :=
        List.isPrefixOf_iff_prefix.mp h
      have h3 : "..".data <+: "../".data := ⟨['/'], rfl⟩
      exact List.isPrefixOf_iff_prefix.mpr (h3.trans h2)
    · refine Bool.or_eq_true_iff.mpr (Or.inl ?_)
      have h2 : "..\\".data <+: file.data :=
        List.isPrefixOf_iff_prefix.mp h
      have h3 : "..".data <+: "..\\".data := ⟨['\\'], rfl⟩
      exact List.isPrefixOf_iff_prefix.mpr (h3.trans h2)
    · subst h; decide
  simp only [run_restore]
  split
  · simp
  · split
    · simp
    · split
      · simp
      · next members heq =>
        split
        · next evs ext heq2 =>
          exact (restoreGo_not_extracted env members.length file hguard members 0 evs ext).1 heq2
        · next evs ext heq2 =>
          exact (restoreGo_not_extracted env members.length file hguard members 0 evs ext).2 heq2

/-- Witness for C1: the member `"../../evil.txt"` of `rsEnvEvil`'s
archive is not extracted (and, concretely, only the safe member is). -/
theorem restore_traversal_guard_witness :
    "../../evil.txt" ∉ (run_restore rsEnvEvil).extracted ∧
    "C:/boot.ini" ∉ (run_restore rsEnvEvil).extracted :=
  ⟨restore_traversal_guard rsEnvEvil "../../evil.txt" (Or.inr (Or.inl (by decide))),
   restore_traversal_guard rsEnvEvil "C:/boot.ini" (Or.inl (by decide))⟩

/-- **C10 counterexample.** With the selected archive containing zero
members (`rsEnvEmptyZip`), `run_restore` ends with
`finish(True, "Restore Complete")`: no division error occurs (the
analysis loop body never runs) and the run reports success, not a
`finish(False, ...)`. -/
theorem restore_empty_archive_counterexample :
    (run_restore rsEnvEmptyZip).events.getLast? =
      some (Event.finish true "Restore Complete") := by
  decide

/-- **C10 (amended).** If the selected latest archive contains zero
members, `run_restore` reports success: both per-member loops are over
an empty list, so the analysis-phase division by the member count is
never executed, no exception is raised, nothing is extracted, and the
run ends with `finish(True, "Restore Complete")`. -/
theorem restore_empty_archive_success (env : RestoreEnv)
    (hdrv : (ensure_drive env.drive).1 = true)
    (harch : env.archives ≠ [])
    (hmem : env.zipMembers = some []) :
    (run_restore env).events.getLast? = some (Event.finish true "Restore Complete") ∧
    (run_restore env).extracted = [] := by
  have harch' : env.archives.isEmpty = false := by
    cases hc : env.archives with
    | nil => exact absurd hc harch
    | cons a l => simp
  have hloop : restoreGo env (0 : Nat) 0 ([] : List String) = .completed [] [] := rfl
  simp only [run_restore, hdrv, Bool.not_true, Bool.false_eq_true, if_false, harch', hmem,
    List.length_nil, hloop, analysisEvents, List.range_zero, List.map_nil, List.append_nil]
  refine ⟨?_, by trivial⟩
  simp [List.getLast?_cons, List.getLast?_append]

/-- Witness for the amended C10 at `rsEnvEmptyZip`. -/
theorem restore_empty_archive_success_witness :
    (run_restore rsEnvEmptyZip).events.getLast? =
      some (Event.finish true "Restore Complete") ∧
    (run_restore rsEnvEmptyZip).extracted = [] :=
  restore_empty_archive_success rsEnvEmptyZip (by decide) (by decide) (by decide)
